import Mathlib

/-!
Shallow embedding of the vote aggregation core of the GuppyCamp consensus
engine: the per-(height, round, kind) `VoteSet` and the per-height
`HeightVoteSet`, translated from `src/unnamed/part_001` (the VoteSet file,
package consensus) and `src/consensus/height_vote_set.go`.

Go mutexes are dropped (the embedding is sequential); pointer mutation is
rendered as explicit state passing; Go `panic` is rendered as `Option`
(`none` = the process aborts); Go maps are rendered as association lists
with Go map read/write semantics; byte strings are `List Nat`.
-/

namespace GuppyCamp

/-- Bytes are modelled as natural numbers, byte strings as lists. -/
abbrev Bytes := List Nat

/-- Embeds `types.PartSetHeader`: a `(total, hash)` pair.  Two headers are
equal iff both fields match (`Equals` in the source). -/
structure PartSetHeader where
  total : Nat
  hash : Bytes
deriving DecidableEq

/-- Embeds `types.Vote` (the fields the consensus core reads): height,
round, a one-byte kind tag, block hash, block parts header and signature. -/
structure Vote where
  height : Nat
  round : Nat
  type_ : Nat
  blockHash : Bytes
  blockParts : PartSetHeader
  signature : Bytes
deriving DecidableEq

/-- Modelled from the spec: the `types.VoteTypePrevote` byte constant (the
types package is not under src; only distinctness of the two tags matters). -/
def VoteTypePrevote : Nat := 1

/-- Modelled from the spec: the `types.VoteTypePrecommit` byte constant. -/
def VoteTypePrecommit : Nat := 2

/-- Modelled from the spec: a validator of the external `sm.ValidatorSet`
interface exposes an address and a positive voting power; its public key is
absorbed into the external verification oracle passed to the add operations. -/
structure Validator where
  address : Bytes
  votingPower : Nat
deriving DecidableEq

/-- Modelled from the spec: the external validator set is an ordered,
immutable sequence of validators. -/
structure ValidatorSet where
  vals : List Validator
deriving DecidableEq

/-- Modelled from the spec: `ValidatorSet.Size()`. -/
def ValidatorSet.size (vs : ValidatorSet) : Nat := vs.vals.length

/-- Modelled from the spec: `ValidatorSet.TotalVotingPower()` is the sum of
all validators' voting powers. -/
def ValidatorSet.totalVotingPower (vs : ValidatorSet) : Nat :=
  (vs.vals.map Validator.votingPower).sum

/-- List lookup with a default, the semantics of a Go slice read (indices
used by the core are always in range, coming from validator-set lookups). -/
def listGet {α : Type} (d : α) : List α → Nat → α
  | [], _ => d
  | x :: _, 0 => x
  | _ :: xs, i + 1 => listGet d xs i

/-- Optional list lookup, used for validator-set lookup by index. -/
def listIdx {α : Type} : List α → Nat → Option α
  | [], _ => none
  | x :: _, 0 => some x
  | _ :: xs, i + 1 => listIdx xs i

/-- Helper for `ValidatorSet.getByAddress`: first index holding the address. -/
def findByAddress (address : Bytes) : List Validator → Option (Nat × Validator)
  | [] => none
  | v :: rest =>
    if v.address = address then some (0, v)
    else
      match findByAddress address rest with
      | none => none
      | some (i, val) => some (i + 1, val)

/-- Modelled from the spec: `ValidatorSet.GetByAddress` returns the index
and validator for an address, or nothing when the address is unknown. -/
def ValidatorSet.getByAddress (vs : ValidatorSet) (address : Bytes) :
    Option (Nat × Validator) :=
  findByAddress address vs.vals

/-- Modelled from the spec: `ValidatorSet.GetByIndex`. -/
def ValidatorSet.getByIndex (vs : ValidatorSet) (i : Nat) : Option Validator :=
  listIdx vs.vals i

/-- Go map read, association-list rendering (`v, ok := m[k]`). -/
def mapFind {α β : Type} [DecidableEq α] : List (α × β) → α → Option β
  | [], _ => none
  | (k, v) :: rest, k' => if k = k' then some v else mapFind rest k'

/-- Go map read of a `map[K]int64` at an absent key yields zero. -/
def mapGet {α : Type} [DecidableEq α] (m : List (α × Nat)) (k : α) : Nat :=
  (mapFind m k).getD 0

/-- Go map write: replace the binding if present, append it otherwise. -/
def mapSet {α β : Type} [DecidableEq α] : List (α × β) → α → β → List (α × β)
  | [], k, v => [(k, v)]
  | (k0, v0) :: rest, k, v =>
    if k0 = k then (k, v) :: rest else (k0, v0) :: mapSet rest k v

/-- Sum of the values of a tally map. -/
def mapSum {α : Type} (m : List (α × Nat)) : Nat := (m.map Prod.snd).sum

/-- Tally key of a vote: the source keys `votesByBlock` by the byte string
`string(BlockHash) + string(binary.BinaryBytes(BlockParts))`; the binary
codec (not under src) is, per the spec, a deterministic encoding under which
equal headers encode identically, so keys are identified with the pair. -/
abbrev BlockKey := Bytes × PartSetHeader

/-- Embeds the error kinds of `types.ErrVote*` returned by the add path. -/
inductive VoteErr where
  | unexpectedStep
  | invalidAccount
  | invalidSignature
  | conflictingSignature (voteA voteB : Vote)
deriving DecidableEq

/-- Result triple `(added, index, err)` of the add operations. -/
structure AddResult where
  added : Bool
  index : Nat
  err : Option VoteErr
deriving DecidableEq

/-- Embeds the `VoteSet` struct: per-validator vote slots, presence bitmap,
weighted tally per block identifier, accepted power, and the maj23 latch. -/
structure VoteSet where
  height : Nat
  round : Nat
  type_ : Nat
  valSet : ValidatorSet
  votes : List (Option Vote)
  votesBitArray : List Bool
  votesByBlock : List (BlockKey × Nat)
  totalVotes : Nat
  maj23Hash : Bytes
  maj23Parts : PartSetHeader
  maj23Exists : Bool
deriving DecidableEq

/-- Embeds `NewVoteSet`.  The source panics on `height == 0`; reachable
states (below) are constructed with a nonzero height only. -/
def NewVoteSet (height round type_ : Nat) (valSet : ValidatorSet) : VoteSet :=
  { height := height
    round := round
    type_ := type_
    valSet := valSet
    votes := List.replicate valSet.size none
    votesBitArray := List.replicate valSet.size false
    votesByBlock := []
    totalVotes := 0
    maj23Hash := []
    maj23Parts := ⟨0, []⟩
    maj23Exists := false }

/-- Signature verification is external (`val.PubKey.VerifyBytes` over the
chain-bound sign bytes); it enters the embedding as an oracle. -/
abbrev VerifyOracle := Validator → Vote → Bool

/-- Accept step of `addVote` (the code after the slot check): fill the slot
and bitmap, bump the tally and total, and latch maj23 exactly on the first
crossing of the strict `> TotalVotingPower*2/3` threshold. -/
def VoteSet.acceptVote (s : VoteSet) (val : Validator) (valIndex : Nat)
    (vote : Vote) : VoteSet :=
  let blockKey : BlockKey := (vote.blockHash, vote.blockParts)
  let totalBlockHashVotes := mapGet s.votesByBlock blockKey + val.votingPower
  let s' : VoteSet :=
    { s with
      votes := s.votes.set valIndex (some vote)
      votesBitArray := s.votesBitArray.set valIndex true
      votesByBlock := mapSet s.votesByBlock blockKey totalBlockHashVotes
      totalVotes := s.totalVotes + val.votingPower }
  if s.valSet.totalVotingPower * 2 / 3 < totalBlockHashVotes ∧
      totalBlockHashVotes - val.votingPower ≤ s.valSet.totalVotingPower * 2 / 3 then
    { s' with
      maj23Hash := vote.blockHash
      maj23Parts := vote.blockParts
      maj23Exists := true }
  else s'

/-- Embeds `VoteSet.addVote`: step check, signature check, duplicate /
conflict check on the slot, then the accept step. -/
def VoteSet.addVote (verify : VerifyOracle) (s : VoteSet) (val : Validator)
    (valIndex : Nat) (vote : Vote) : AddResult × VoteSet :=
  if vote.height ≠ s.height ∨ vote.round ≠ s.round ∨ vote.type_ ≠ s.type_ then
    (⟨false, 0, some VoteErr.unexpectedStep⟩, s)
  else if verify val vote = false then
    (⟨false, 0, some VoteErr.invalidSignature⟩, s)
  else
    match listGet none s.votes valIndex with
    | some existingVote =>
      if existingVote.blockHash = vote.blockHash then
        (⟨false, valIndex, none⟩, s)
      else
        (⟨false, valIndex, some (VoteErr.conflictingSignature existingVote vote)⟩, s)
    | none => (⟨true, valIndex, none⟩, s.acceptVote val valIndex vote)

/-- Embeds `VoteSet.AddByIndex`. -/
def VoteSet.AddByIndex (verify : VerifyOracle) (s : VoteSet) (valIndex : Nat)
    (vote : Vote) : AddResult × VoteSet :=
  match s.valSet.getByIndex valIndex with
  | none => (⟨false, 0, some VoteErr.invalidAccount⟩, s)
  | some val => s.addVote verify val valIndex vote

/-- Embeds `VoteSet.AddByAddress`. -/
def VoteSet.AddByAddress (verify : VerifyOracle) (s : VoteSet) (address : Bytes)
    (vote : Vote) : AddResult × VoteSet :=
  match s.valSet.getByAddress address with
  | none => (⟨false, 0, some VoteErr.invalidAccount⟩, s)
  | some (valIndex, val) => s.addVote verify val valIndex vote

/-- Embeds `VoteSet.TwoThirdsMajority` (non-nil receiver in the source):
the latched pair when `maj23Exists`, nothing otherwise. -/
def VoteSet.TwoThirdsMajority (s : VoteSet) : Option (Bytes × PartSetHeader) :=
  if s.maj23Exists then some (s.maj23Hash, s.maj23Parts) else none

namespace VoteSetPtr

/-- Embeds `(*VoteSet).Height` with its nil-receiver default. -/
def Height : Option VoteSet → Nat
  | none => 0
  | some s => s.height

/-- Embeds `(*VoteSet).Round` with its nil-receiver default. -/
def Round : Option VoteSet → Nat
  | none => 0
  | some s => s.round

/-- Embeds `(*VoteSet).Size` with its nil-receiver default. -/
def Size : Option VoteSet → Nat
  | none => 0
  | some s => s.valSet.size

/-- Embeds `(*VoteSet).BitArray`: nil on a nil receiver, else a copy of the
presence bitmap (copying is the identity in the value model). -/
def BitArray : Option VoteSet → Option (List Bool)
  | none => none
  | some s => some s.votesBitArray

/-- Embeds `(*VoteSet).HasTwoThirdsMajority` with its nil-receiver default. -/
def HasTwoThirdsMajority : Option VoteSet → Bool
  | none => false
  | some s => s.maj23Exists

/-- Embeds `(*VoteSet).HasTwoThirdsAny` with its nil-receiver default. -/
def HasTwoThirdsAny : Option VoteSet → Bool
  | none => false
  | some s => decide (s.valSet.totalVotingPower * 2 / 3 < s.totalVotes)

end VoteSetPtr

/-- Slot selector of `MakeValidation`: keep a stored vote iff it matches the
latched maj23 block hash and parts header. -/
def selectPrecommit (hash : Bytes) (parts : PartSetHeader) :
    Option Vote → Option Vote
  | none => none
  | some v => if v.blockHash = hash ∧ v.blockParts = parts then some v else none

/-- Embeds `types.Validation`: precommit slots in validator-index order. -/
structure Validation where
  precommits : List (Option Vote)
deriving DecidableEq

/-- Embeds `VoteSet.MakeValidation`: panics (`none`) unless the kind is
Precommit and `maj23Hash` is nonempty; otherwise fills slot i with the
stored vote exactly when it matches maj23 in hash and parts (the source
iterates the validator set in index order over the parallel `votes` slice). -/
def VoteSet.MakeValidation (s : VoteSet) : Option Validation :=
  if s.type_ ≠ VoteTypePrecommit then none
  else if s.maj23Hash.length = 0 then none
  else some ⟨s.votes.map (selectPrecommit s.maj23Hash s.maj23Parts)⟩

/-- Embeds the `RoundVoteSet` pair. -/
structure RoundVoteSet where
  Prevotes : VoteSet
  Precommits : VoteSet
deriving DecidableEq

/-- Embeds the `HeightVoteSet` struct. -/
structure HeightVoteSet where
  height : Nat
  valSet : ValidatorSet
  round : Nat
  roundVoteSets : List (Nat × RoundVoteSet)
  peerCatchupRounds : List (String × Nat)
deriving DecidableEq

/-- Embeds `HeightVoteSet.addRound`: panics (`none`) on an existing round,
else allocates the prevote/precommit pair for the round. -/
def HeightVoteSet.addRound (hvs : HeightVoteSet) (round : Nat) :
    Option HeightVoteSet :=
  match mapFind hvs.roundVoteSets round with
  | some _ => none
  | none =>
    let prevotes := NewVoteSet hvs.height round VoteTypePrevote hvs.valSet
    let precommits := NewVoteSet hvs.height round VoteTypePrecommit hvs.valSet
    some { hvs with
      roundVoteSets := mapSet hvs.roundVoteSets round ⟨prevotes, precommits⟩ }

/-- Embeds `NewHeightVoteSet`: empty maps, `addRound(0)`, `round = 0`
(`addRound` cannot panic on the empty map). -/
def NewHeightVoteSet (height : Nat) (valSet : ValidatorSet) : HeightVoteSet :=
  let hvs0 : HeightVoteSet :=
    { height := height, valSet := valSet, round := 0
      roundVoteSets := [], peerCatchupRounds := [] }
  match hvs0.addRound 0 with
  | some hvs => { hvs with round := 0 }
  | none => hvs0

/-- Loop of `SetRound`, `for r := hvs.round + 1; r <= round; r++`, rendered
structurally: the last argument counts the remaining iterations (the loop
runs exactly `round - hvs.round` times).  The body is translated verbatim
from the source: when round r is absent it calls `addRound(round)` — the
loop bound, not the loop variable `r`. -/
def setRoundIter (round : Nat) : HeightVoteSet → Nat → Nat → Option HeightVoteSet
  | hvs, _, 0 => some hvs
  | hvs, r, n + 1 =>
    match mapFind hvs.roundVoteSets r with
    | some _ => setRoundIter round hvs (r + 1) n
    | none =>
      match hvs.addRound round with
      | none => none
      | some hvs' => setRoundIter round hvs' (r + 1) n

/-- Embeds `HeightVoteSet.SetRound`: panics (`none`) unless the new round
strictly advances (first call from round 0 excepted), runs the loop, then
sets `round`. -/
def HeightVoteSet.SetRound (hvs : HeightVoteSet) (round : Nat) :
    Option HeightVoteSet :=
  if hvs.round ≠ 0 ∧ round < hvs.round + 1 then none
  else
    match setRoundIter round hvs (hvs.round + 1) (round - hvs.round) with
    | none => none
    | some hvs' => some { hvs' with round := round }

/-- Embeds `HeightVoteSet.getVoteSet`: outer `none` is the panic on an
unknown vote kind with the round present; inner `none` is the Go nil
returned when the round is absent. -/
def HeightVoteSet.getVoteSet (hvs : HeightVoteSet) (round : Nat)
    (type_ : Nat) : Option (Option VoteSet) :=
  match mapFind hvs.roundVoteSets round with
  | none => some none
  | some rvs =>
    if type_ = VoteTypePrevote then some (some rvs.Prevotes)
    else if type_ = VoteTypePrecommit then some (some rvs.Precommits)
    else none

/-- Write-back of a mutated VoteSet into its RoundVoteSet slot (the Go map
holds pointers, so in-place mutation is visible through the map). -/
def RoundVoteSet.withKind (rvs : RoundVoteSet) (type_ : Nat) (vs : VoteSet) :
    RoundVoteSet :=
  if type_ = VoteTypePrevote then { rvs with Prevotes := vs }
  else if type_ = VoteTypePrecommit then { rvs with Precommits := vs }
  else rvs

/-- Write-back half of the pointer model for `HeightVoteSet`. -/
def HeightVoteSet.putVoteSet (hvs : HeightVoteSet) (round type_ : Nat)
    (vs : VoteSet) : HeightVoteSet :=
  match mapFind hvs.roundVoteSets round with
  | none => hvs
  | some rvs =>
    { hvs with roundVoteSets := mapSet hvs.roundVoteSets round (rvs.withKind type_ vs) }

/-- Embeds `HeightVoteSet.AddByAddress`: route by `(vote.Round, vote.Type)`;
when the round is absent, either open the single catch-up round for the
peer and return the zero result (the source returns without delegating the
vote), or silently drop the vote of an already-granted peer; when the
VoteSet exists, delegate to its `AddByAddress` verbatim. -/
def HeightVoteSet.AddByAddress (verify : VerifyOracle) (hvs : HeightVoteSet)
    (address : Bytes) (vote : Vote) (peerKey : String) :
    Option (AddResult × HeightVoteSet) :=
  match hvs.getVoteSet vote.round vote.type_ with
  | none => none
  | some none =>
    match mapFind hvs.peerCatchupRounds peerKey with
    | none =>
      match hvs.addRound vote.round with
      | none => none
      | some hvs1 =>
        some (⟨false, 0, none⟩,
          { hvs1 with
            peerCatchupRounds := mapSet hvs1.peerCatchupRounds peerKey vote.round })
    | some _ => some (⟨false, 0, none⟩, hvs)
  | some (some voteSet) =>
    let r := voteSet.AddByAddress verify address vote
    some (r.1, hvs.putVoteSet vote.round vote.type_ r.2)

/-- Embeds `HeightVoteSet.Prevotes` (the literal kind makes the kind panic
of `getVoteSet` unreachable, hence the `join`). -/
def HeightVoteSet.Prevotes (hvs : HeightVoteSet) (round : Nat) : Option VoteSet :=
  (hvs.getVoteSet round VoteTypePrevote).join

/-- Embeds `HeightVoteSet.Precommits`. -/
def HeightVoteSet.Precommits (hvs : HeightVoteSet) (round : Nat) : Option VoteSet :=
  (hvs.getVoteSet round VoteTypePrecommit).join

/-- Prevote majority test at a round, as `POLRound` performs it (a nil
VoteSet reports no majority). -/
def HeightVoteSet.majPrevoteAt (hvs : HeightVoteSet) (r : Nat) : Bool :=
  VoteSetPtr.HasTwoThirdsMajority (hvs.Prevotes r)

/-- Descending scan of `POLRound`, `for r := hvs.round; r >= 0; r--`. -/
def HeightVoteSet.polScan (hvs : HeightVoteSet) : Nat → Int
  | 0 => if hvs.majPrevoteAt 0 then 0 else -1
  | r + 1 => if hvs.majPrevoteAt (r + 1) then ((r : Int) + 1) else hvs.polScan r

/-- Embeds `HeightVoteSet.POLRound`. -/
def HeightVoteSet.POLRound (hvs : HeightVoteSet) : Int :=
  hvs.polScan hvs.round

/-- Weighted power of the filled vote slots, slot i weighted by validator i. -/
def votedPowerAux : List Validator → List (Option Vote) → Nat
  | [], _ => 0
  | _ :: _, [] => 0
  | _ :: vs, none :: ws => votedPowerAux vs ws
  | v :: vs, some _ :: ws => v.votingPower + votedPowerAux vs ws

/-- Structural invariant of a VoteSet maintained by the add operations:
slot/validator alignment, total-vs-slots accounting, tally-sum accounting,
and the latched identifier's tally strictly above the 2/3 threshold. -/
structure VSInv (s : VoteSet) : Prop where
  lenEq : s.votes.length = s.valSet.vals.length
  totalEq : s.totalVotes = votedPowerAux s.valSet.vals s.votes
  sumEq : mapSum s.votesByBlock = s.totalVotes
  majBig : s.maj23Exists = true →
    s.valSet.totalVotingPower * 2 / 3 <
      mapGet s.votesByBlock (s.maj23Hash, s.maj23Parts)

/-- States of a VoteSet reachable through the public API: construction at a
nonzero height followed by any sequence of add operations. -/
inductive VoteSet.Reachable (verify : VerifyOracle) : VoteSet → Prop where
  | init (height round type_ : Nat) (valSet : ValidatorSet) (h : height ≠ 0) :
      VoteSet.Reachable verify (NewVoteSet height round type_ valSet)
  | stepAddr (s : VoteSet) (address : Bytes) (vote : Vote)
      (h : VoteSet.Reachable verify s) :
      VoteSet.Reachable verify (s.AddByAddress verify address vote).2
  | stepIndex (s : VoteSet) (valIndex : Nat) (vote : Vote)
      (h : VoteSet.Reachable verify s) :
      VoteSet.Reachable verify (s.AddByIndex verify valIndex vote).2

/-- Fold of `AddByAddress` over a list of (address, vote) submissions. -/
def VoteSet.applyAdds (verify : VerifyOracle) (s : VoteSet) :
    List (Bytes × Vote) → VoteSet
  | [] => s
  | (address, vote) :: rest =>
    VoteSet.applyAdds verify (s.AddByAddress verify address vote).2 rest

/-- Verification oracle that accepts everything, for concrete scenarios. -/
def trivialVerify : VerifyOracle := fun _ _ => true

/-- Single-validator set (address 0x0A, power 1) for concrete scenarios. -/
def vs1 : ValidatorSet := ⟨[⟨[10], 1⟩]⟩

/-- A precommit of validator 0x0A at (height 1, round 0) for block 0xAA. -/
def voteAA : Vote := ⟨1, 0, VoteTypePrecommit, [170], ⟨1, [187]⟩, [7]⟩

/-- A precommit at (height 1, round 0) for the nil block (empty hash). -/
def voteNil : Vote := ⟨1, 0, VoteTypePrecommit, [], ⟨0, []⟩, [8]⟩

/-- A precommit of validator 0x0A at (height 1, round 7) for block 0xAA. -/
def voteR7 : Vote := ⟨1, 7, VoteTypePrecommit, [170], ⟨1, [187]⟩, [9]⟩

/-- Single-validator precommit VoteSet after accepting `voteAA`: maj23 is
latched on block 0xAA. -/
def latchedAA : VoteSet :=
  ((NewVoteSet 1 0 VoteTypePrecommit vs1).AddByAddress trivialVerify [10] voteAA).2

/-- Single-validator precommit VoteSet after accepting the nil vote: maj23
is latched on the empty block hash. -/
def latchedNil : VoteSet :=
  ((NewVoteSet 1 0 VoteTypePrecommit vs1).AddByAddress trivialVerify [10] voteNil).2

/-- Two-validator set with powers 6 and 3 (total 9) for the exact-threshold
boundary scenario. -/
def vs96 : ValidatorSet := ⟨[⟨[1], 6⟩, ⟨[2], 3⟩]⟩

/-- VoteSet literal with the maj23 flag forced, for concrete POLRound
scenarios (the flag is all `POLRound` inspects). -/
def dummyVoteSet (maj : Bool) : VoteSet :=
  { NewVoteSet 1 0 VoteTypePrevote vs1 with maj23Exists := maj }

/-- HeightVoteSet with rounds 0..3 where only rounds 0 and 2 carry a +2/3
prevote majority — the POL-round selection scenario of the spec. -/
def hvsPOL : HeightVoteSet :=
  { height := 1
    valSet := vs1
    round := 3
    roundVoteSets :=
      [(0, ⟨dummyVoteSet true, dummyVoteSet false⟩),
       (1, ⟨dummyVoteSet false, dummyVoteSet false⟩),
       (2, ⟨dummyVoteSet true, dummyVoteSet false⟩),
       (3, ⟨dummyVoteSet false, dummyVoteSet false⟩)]
    peerCatchupRounds := [] }

/-- A precommit of validator 0x0A at (height 1, round 0) for block 0xBB. -/
def voteBB : Vote := ⟨1, 0, VoteTypePrecommit, [187], ⟨1, [170]⟩, [3]⟩

/-- A precommit for block 0xAA with the same hash as `voteAA` but a
different parts header. -/
def voteAAparts : Vote := ⟨1, 0, VoteTypePrecommit, [170], ⟨2, [9]⟩, [4]⟩

/-- The Validation produced from `latchedAA`. -/
def validationAA : Validation := ⟨[some voteAA]⟩

/-! ## Lemmas about the map and list helpers -/

theorem mapFind_set_self {α β : Type} [DecidableEq α] (m : List (α × β)) (k : α) (v : β) :
    mapFind (mapSet m k v) k = some v := by
  induction m with
  | nil => simp [mapSet, mapFind]
  | cons p rest ih =>
    obtain ⟨k0, v0⟩ := p
    by_cases h : k0 = k
    · simp [mapSet, h, mapFind]
    · simp [mapSet, h, mapFind, ih]

theorem mapFind_set_ne {α β : Type} [DecidableEq α] (m : List (α × β)) (k k' : α) (v : β)
    (h : k ≠ k') : mapFind (mapSet m k v) k' = mapFind m k' := by
  induction m with
  | nil => simp [mapSet, mapFind, h]
  | cons p rest ih =>
    obtain ⟨k0, v0⟩ := p
    by_cases h0 : k0 = k
    · subst h0
      simp [mapSet, mapFind, h]
    · simp [mapSet, h0, mapFind, ih]

theorem mapGet_set_self {α : Type} [DecidableEq α] (m : List (α × Nat)) (k : α) (v : Nat) :
    mapGet (mapSet m k v) k = v := by
  simp [mapGet, mapFind_set_self]

theorem mapGet_set_ne {α : Type} [DecidableEq α] (m : List (α × Nat)) (k k' : α) (v : Nat)
    (h : k ≠ k') : mapGet (mapSet m k v) k' = mapGet m k' := by
  simp [mapGet, mapFind_set_ne m k k' v h]

theorem mapGet_cons {α : Type} [DecidableEq α] (k0 : α) (v0 : Nat) (rest : List (α × Nat))
    (k : α) : mapGet ((k0, v0) :: rest) k = if k0 = k then v0 else mapGet rest k := by
  by_cases h : k0 = k <;> simp [mapGet, mapFind, h]

theorem mapSum_cons {α : Type} (k : α) (v : Nat) (rest : List (α × Nat)) :
    mapSum ((k, v) :: rest) = v + mapSum rest := by
  simp [mapSum]

theorem mapSum_set_get {α : Type} [DecidableEq α] (m : List (α × Nat)) (k : α) (p : Nat) :
    mapSum (mapSet m k (mapGet m k + p)) = mapSum m + p := by
  induction m with
  | nil => simp [mapSet, mapGet, mapFind, mapSum]
  | cons q rest ih =>
    obtain ⟨k0, v0⟩ := q
    by_cases h : k0 = k
    · subst h
      simp [mapSet, mapGet_cons, mapSum_cons]
      omega
    · simp only [mapSet, if_neg h, mapGet_cons, mapSum_cons, ih]
      omega

theorem mapGet_le_sum {α : Type} [DecidableEq α] (m : List (α × Nat)) (k : α) :
    mapGet m k ≤ mapSum m := by
  induction m with
  | nil => simp [mapGet, mapFind, mapSum]
  | cons q rest ih =>
    obtain ⟨k0, v0⟩ := q
    rw [mapGet_cons, mapSum_cons]
    by_cases h : k0 = k
    · simp [h]
    · simp [h]
      omega

theorem mapGet_two_le_sum {α : Type} [DecidableEq α] (m : List (α × Nat)) (k k' : α)
    (h : k ≠ k') : mapGet m k + mapGet m k' ≤ mapSum m := by
  induction m with
  | nil => simp [mapGet, mapFind, mapSum]
  | cons q rest ih =>
    obtain ⟨k0, v0⟩ := q
    rw [mapGet_cons, mapGet_cons, mapSum_cons]
    by_cases h0 : k0 = k
    · subst h0
      rw [if_pos rfl, if_neg h]
      have := mapGet_le_sum rest k'
      omega
    · rw [if_neg h0]
      by_cases h1 : k0 = k'
      · subst h1
        rw [if_pos rfl]
        have := mapGet_le_sum rest k
        omega
      · rw [if_neg h1]
        omega

theorem mapGet_set_bump_mono {α : Type} [DecidableEq α] (m : List (α × Nat)) (k k' : α)
    (p : Nat) : mapGet m k' ≤ mapGet (mapSet m k (mapGet m k + p)) k' := by
  by_cases h : k = k'
  · subst h
    rw [mapGet_set_self]
    omega
  · rw [mapGet_set_ne m k k' _ h]

theorem listGet_set_self {α : Type} (d : α) (l : List α) (i : Nat) (v : α)
    (h : i < l.length) : listGet d (l.set i v) i = v := by
  induction l generalizing i with
  | nil => simp at h
  | cons x xs ih =>
    cases i with
    | zero => simp [listGet]
    | succ j =>
      simp only [List.set, listGet]
      exact ih j (by simpa using h)

theorem listIdx_lt_length {α : Type} (l : List α) (i : Nat) (a : α)
    (h : listIdx l i = some a) : i < l.length := by
  induction l generalizing i with
  | nil => simp [listIdx] at h
  | cons x xs ih =>
    cases i with
    | zero => simp
    | succ j =>
      simp only [listIdx] at h
      simpa using ih j h

theorem findByAddress_listIdx (address : Bytes) (vals : List Validator) (i : Nat)
    (val : Validator) (h : findByAddress address vals = some (i, val)) :
    listIdx vals i = some val := by
  induction vals generalizing i with
  | nil => simp [findByAddress] at h
  | cons v rest ih =>
    by_cases hv : v.address = address
    · simp only [findByAddress, if_pos hv, Option.some.injEq, Prod.mk.injEq] at h
      obtain ⟨hi, hval⟩ := h
      subst hi
      subst hval
      rfl
    · simp only [findByAddress, if_neg hv] at h
      cases hf : findByAddress address rest with
      | none => rw [hf] at h; simp at h
      | some p =>
        obtain ⟨j, w⟩ := p
        rw [hf] at h
        simp only [Option.some.injEq, Prod.mk.injEq] at h
        obtain ⟨hi, hval⟩ := h
        subst hval
        subst hi
        simpa [listIdx] using ih j hf

/-! ## Lemmas about the accounting of accepted power -/

theorem votedPowerAux_le (vals : List Validator) (ws : List (Option Vote)) :
    votedPowerAux vals ws ≤ (vals.map Validator.votingPower).sum := by
  induction vals generalizing ws with
  | nil => simp [votedPowerAux]
  | cons v vs ih =>
    cases ws with
    | nil => simp [votedPowerAux]
    | cons w ws' =>
      cases w with
      | none =>
        simp only [votedPowerAux, List.map_cons, List.sum_cons]
        have := ih ws'
        omega
      | some _ =>
        simp only [votedPowerAux, List.map_cons, List.sum_cons]
        have := ih ws'
        omega

theorem votedPowerAux_replicate (vals : List Validator) (n : Nat) :
    votedPowerAux vals (List.replicate n none) = 0 := by
  induction vals generalizing n with
  | nil => simp [votedPowerAux]
  | cons v vs ih =>
    cases n with
    | zero => simp [votedPowerAux]
    | succ m =>
      simp only [List.replicate, votedPowerAux, ih]

theorem votedPowerAux_set (vals : List Validator) (ws : List (Option Vote)) (i : Nat)
    (val : Validator) (v : Vote) (hv : listIdx vals i = some val)
    (hs : listGet none ws i = none) (hlen : i < ws.length) :
    votedPowerAux vals (ws.set i (some v)) = votedPowerAux vals ws + val.votingPower := by
  induction i generalizing vals ws with
  | zero =>
    cases vals with
    | nil => simp [listIdx] at hv
    | cons v0 vs =>
      cases ws with
      | nil => simp at hlen
      | cons w ws' =>
        simp only [listIdx, Option.some.injEq] at hv
        subst hv
        simp only [listGet] at hs
        subst hs
        simp only [List.set, votedPowerAux]
        omega
  | succ j ih =>
    cases vals with
    | nil => simp [listIdx] at hv
    | cons v0 vs =>
      cases ws with
      | nil => simp at hlen
      | cons w ws' =>
        simp only [listIdx] at hv
        simp only [listGet] at hs
        cases w with
        | none =>
          simp only [List.set, votedPowerAux]
          rw [ih vs ws' hv hs (by simpa using hlen)]
        | some _ =>
          simp only [List.set, votedPowerAux]
          rw [ih vs ws' hv hs (by simpa using hlen)]
          omega

/-- Arithmetic core of maj23 uniqueness: two tallies strictly above the
integer two-thirds threshold cannot both fit inside the total. -/
theorem twoThirds_arith (T a b : Nat) (ha : T * 2 / 3 < a) (hb : T * 2 / 3 < b)
    (hab : a + b ≤ T) : False := by
  omega

/-! ## Shape lemmas for the accept step -/

theorem acceptVote_height (s : VoteSet) (val : Validator) (i : Nat) (vote : Vote) :
    (s.acceptVote val i vote).height = s.height := by
  simp only [VoteSet.acceptVote]
  split <;> rfl

theorem acceptVote_round (s : VoteSet) (val : Validator) (i : Nat) (vote : Vote) :
    (s.acceptVote val i vote).round = s.round := by
  simp only [VoteSet.acceptVote]
  split <;> rfl

theorem acceptVote_type (s : VoteSet) (val : Validator) (i : Nat) (vote : Vote) :
    (s.acceptVote val i vote).type_ = s.type_ := by
  simp only [VoteSet.acceptVote]
  split <;> rfl

theorem acceptVote_valSet (s : VoteSet) (val : Validator) (i : Nat) (vote : Vote) :
    (s.acceptVote val i vote).valSet = s.valSet := by
  simp only [VoteSet.acceptVote]
  split <;> rfl

theorem acceptVote_votes (s : VoteSet) (val : Validator) (i : Nat) (vote : Vote) :
    (s.acceptVote val i vote).votes = s.votes.set i (some vote) := by
  simp only [VoteSet.acceptVote]
  split <;> rfl

theorem acceptVote_votesByBlock (s : VoteSet) (val : Validator) (i : Nat) (vote : Vote) :
    (s.acceptVote val i vote).votesByBlock =
      mapSet s.votesByBlock (vote.blockHash, vote.blockParts)
        (mapGet s.votesByBlock (vote.blockHash, vote.blockParts) + val.votingPower) := by
  simp only [VoteSet.acceptVote]
  split <;> rfl

theorem acceptVote_totalVotes (s : VoteSet) (val : Validator) (i : Nat) (vote : Vote) :
    (s.acceptVote val i vote).totalVotes = s.totalVotes + val.votingPower := by
  simp only [VoteSet.acceptVote]
  split <;> rfl

/-! ## Invariant preservation -/

theorem NewVoteSet_inv (height round type_ : Nat) (valSet : ValidatorSet) :
    VSInv (NewVoteSet height round type_ valSet) := by
  constructor
  · simp [NewVoteSet, ValidatorSet.size]
  · simp [NewVoteSet, votedPowerAux_replicate]
  · simp [NewVoteSet, mapSum]
  · simp [NewVoteSet]

theorem acceptVote_inv (s : VoteSet) (val : Validator) (i : Nat) (vote : Vote)
    (hInv : VSInv s) (hv : listIdx s.valSet.vals i = some val)
    (hs : listGet none s.votes i = none) :
    VSInv (s.acceptVote val i vote) := by
  have hi : i < s.votes.length := by
    rw [hInv.lenEq]
    exact listIdx_lt_length _ _ _ hv
  have hset : votedPowerAux s.valSet.vals (s.votes.set i (some vote)) =
      votedPowerAux s.valSet.vals s.votes + val.votingPower :=
    votedPowerAux_set _ _ _ _ _ hv hs hi
  constructor
  · rw [acceptVote_votes, acceptVote_valSet, List.length_set]
    exact hInv.lenEq
  · rw [acceptVote_totalVotes, acceptVote_valSet, acceptVote_votes, hset, hInv.totalEq]
  · rw [acceptVote_votesByBlock, acceptVote_totalVotes, mapSum_set_get, hInv.sumEq]
  · intro hmaj
    rw [acceptVote_valSet, acceptVote_votesByBlock]
    simp only [VoteSet.acceptVote] at hmaj ⊢
    split at hmaj
    · next hcond =>
      rw [if_pos hcond]
      simp only
      rw [mapGet_set_self]
      exact hcond.1
    · next hcond =>
      rw [if_neg hcond]
      simp only at hmaj ⊢
      have h1 := hInv.majBig hmaj
      calc s.valSet.totalVotingPower * 2 / 3
          < mapGet s.votesByBlock (s.maj23Hash, s.maj23Parts) := h1
        _ ≤ _ := mapGet_set_bump_mono _ _ _ _

theorem addVote_cases (verify : VerifyOracle) (s : VoteSet) (val : Validator) (i : Nat)
    (vote : Vote) :
    (s.addVote verify val i vote).2 = s ∨
      (listGet none s.votes i = none ∧
        (s.addVote verify val i vote).2 = s.acceptVote val i vote) := by
  unfold VoteSet.addVote
  split
  · exact Or.inl rfl
  split
  · exact Or.inl rfl
  split
  · split
    · exact Or.inl rfl
    · exact Or.inl rfl
  · next hnone => exact Or.inr ⟨hnone, rfl⟩

theorem addVote_inv (verify : VerifyOracle) (s : VoteSet) (val : Validator) (i : Nat)
    (vote : Vote) (hInv : VSInv s) (hv : listIdx s.valSet.vals i = some val) :
    VSInv (s.addVote verify val i vote).2 := by
  rcases addVote_cases verify s val i vote with h | ⟨hs, h⟩
  · rw [h]; exact hInv
  · rw [h]; exact acceptVote_inv s val i vote hInv hv hs

theorem AddByAddress_inv (verify : VerifyOracle) (s : VoteSet) (address : Bytes)
    (vote : Vote) (hInv : VSInv s) : VSInv (s.AddByAddress verify address vote).2 := by
  unfold VoteSet.AddByAddress
  cases hfind : s.valSet.getByAddress address with
  | none => exact hInv
  | some p =>
    obtain ⟨i, val⟩ := p
    exact addVote_inv verify s val i vote hInv
      (findByAddress_listIdx address s.valSet.vals i val hfind)

theorem AddByIndex_inv (verify : VerifyOracle) (s : VoteSet) (i : Nat) (vote : Vote)
    (hInv : VSInv s) : VSInv (s.AddByIndex verify i vote).2 := by
  unfold VoteSet.AddByIndex
  cases hfind : s.valSet.getByIndex i with
  | none => exact hInv
  | some val => exact addVote_inv verify s val i vote hInv hfind

theorem reachable_inv (verify : VerifyOracle) (s : VoteSet)
    (h : VoteSet.Reachable verify s) : VSInv s := by
  induction h with
  | init height round type_ valSet hne => exact NewVoteSet_inv height round type_ valSet
  | stepAddr s address vote h ih => exact AddByAddress_inv verify s address vote ih
  | stepIndex s valIndex vote h ih => exact AddByIndex_inv verify s valIndex vote ih

/-! ## The maj23 latch never moves once set -/

theorem acceptVote_maj23 (s : VoteSet) (val : Validator) (i : Nat) (vote : Vote)
    (hInv : VSInv s) (hv : listIdx s.valSet.vals i = some val)
    (hs : listGet none s.votes i = none) (hmaj : s.maj23Exists = true) :
    (s.acceptVote val i vote).maj23Exists = true ∧
      (s.acceptVote val i vote).maj23Hash = s.maj23Hash ∧
      (s.acceptVote val i vote).maj23Parts = s.maj23Parts := by
  have hi : i < s.votes.length := by
    rw [hInv.lenEq]
    exact listIdx_lt_length _ _ _ hv
  have hM := hInv.majBig hmaj
  have hcond : ¬ (s.valSet.totalVotingPower * 2 / 3 <
      mapGet s.votesByBlock (vote.blockHash, vote.blockParts) + val.votingPower ∧
      mapGet s.votesByBlock (vote.blockHash, vote.blockParts) + val.votingPower -
        val.votingPower ≤ s.valSet.totalVotingPower * 2 / 3) := by
    rintro ⟨h1, h2⟩
    rw [Nat.add_sub_cancel] at h2
    have hne : (s.maj23Hash, s.maj23Parts) ≠ ((vote.blockHash, vote.blockParts) : BlockKey) := by
      intro he
      rw [he] at hM
      omega
    have e1 : mapGet (mapSet s.votesByBlock (vote.blockHash, vote.blockParts)
          (mapGet s.votesByBlock (vote.blockHash, vote.blockParts) + val.votingPower))
          (vote.blockHash, vote.blockParts) =
        mapGet s.votesByBlock (vote.blockHash, vote.blockParts) + val.votingPower :=
      mapGet_set_self _ _ _
    have e2 : mapGet (mapSet s.votesByBlock (vote.blockHash, vote.blockParts)
          (mapGet s.votesByBlock (vote.blockHash, vote.blockParts) + val.votingPower))
          (s.maj23Hash, s.maj23Parts) =
        mapGet s.votesByBlock (s.maj23Hash, s.maj23Parts) :=
      mapGet_set_ne _ _ _ _ (fun he => hne he.symm)
    have e3 := mapGet_two_le_sum (mapSet s.votesByBlock (vote.blockHash, vote.blockParts)
        (mapGet s.votesByBlock (vote.blockHash, vote.blockParts) + val.votingPower))
        ((vote.blockHash, vote.blockParts) : BlockKey) (s.maj23Hash, s.maj23Parts)
        (fun he => hne he.symm)
    have e4 : mapSum (mapSet s.votesByBlock (vote.blockHash, vote.blockParts)
          (mapGet s.votesByBlock (vote.blockHash, vote.blockParts) + val.votingPower)) =
        mapSum s.votesByBlock + val.votingPower := mapSum_set_get _ _ _
    have e5 : votedPowerAux s.valSet.vals (s.votes.set i (some vote)) =
        votedPowerAux s.valSet.vals s.votes + val.votingPower :=
      votedPowerAux_set _ _ _ _ _ hv hs hi
    have e6 := votedPowerAux_le s.valSet.vals (s.votes.set i (some vote))
    have e7 : mapSum s.votesByBlock = s.totalVotes := hInv.sumEq
    have e8 : s.totalVotes = votedPowerAux s.valSet.vals s.votes := hInv.totalEq
    refine twoThirds_arith s.valSet.totalVotingPower
      (mapGet s.votesByBlock (vote.blockHash, vote.blockParts) + val.votingPower)
      (mapGet s.votesByBlock (s.maj23Hash, s.maj23Parts)) h1 hM ?_
    rw [e1, e2] at e3
    rw [e4, e7, e8, ← e5] at e3
    calc mapGet s.votesByBlock (vote.blockHash, vote.blockParts) + val.votingPower +
          mapGet s.votesByBlock (s.maj23Hash, s.maj23Parts)
        ≤ votedPowerAux s.valSet.vals (s.votes.set i (some vote)) := e3
      _ ≤ (s.valSet.vals.map Validator.votingPower).sum := e6
      _ = s.valSet.totalVotingPower := rfl
  simp only [VoteSet.acceptVote]
  rw [if_neg hcond]
  exact ⟨hmaj, rfl, rfl⟩

theorem addVote_maj23 (verify : VerifyOracle) (s : VoteSet) (val : Validator) (i : Nat)
    (vote : Vote) (hInv : VSInv s) (hv : listIdx s.valSet.vals i = some val)
    (hmaj : s.maj23Exists = true) :
    (s.addVote verify val i vote).2.maj23Exists = true ∧
      (s.addVote verify val i vote).2.maj23Hash = s.maj23Hash ∧
      (s.addVote verify val i vote).2.maj23Parts = s.maj23Parts := by
  rcases addVote_cases verify s val i vote with h | ⟨hs, h⟩
  · rw [h]; exact ⟨hmaj, rfl, rfl⟩
  · rw [h]; exact acceptVote_maj23 s val i vote hInv hv hs hmaj

theorem AddByAddress_maj23 (verify : VerifyOracle) (s : VoteSet) (address : Bytes)
    (vote : Vote) (hInv : VSInv s) (hmaj : s.maj23Exists = true) :
    (s.AddByAddress verify address vote).2.maj23Exists = true ∧
      (s.AddByAddress verify address vote).2.maj23Hash = s.maj23Hash ∧
      (s.AddByAddress verify address vote).2.maj23Parts = s.maj23Parts := by
  unfold VoteSet.AddByAddress
  cases hfind : s.valSet.getByAddress address with
  | none => exact ⟨hmaj, rfl, rfl⟩
  | some p =>
    obtain ⟨i, val⟩ := p
    exact addVote_maj23 verify s val i vote hInv
      (findByAddress_listIdx address s.valSet.vals i val hfind) hmaj

theorem applyAdds_maj23 (verify : VerifyOracle) (ops : List (Bytes × Vote)) (s : VoteSet)
    (hreach : VoteSet.Reachable verify s) (hmaj : s.maj23Exists = true) :
    (VoteSet.applyAdds verify s ops).maj23Exists = true ∧
      (VoteSet.applyAdds verify s ops).maj23Hash = s.maj23Hash ∧
      (VoteSet.applyAdds verify s ops).maj23Parts = s.maj23Parts := by
  induction ops generalizing s with
  | nil => exact ⟨hmaj, rfl, rfl⟩
  | cons op rest ih =>
    obtain ⟨address, vote⟩ := op
    have h1 := AddByAddress_maj23 verify s address vote (reachable_inv verify s hreach) hmaj
    have hreach' := VoteSet.Reachable.stepAddr s address vote hreach
    have h2 := ih ((s.AddByAddress verify address vote).2) hreach' h1.1
    exact ⟨h2.1, h2.2.1.trans h1.2.1, h2.2.2.trans h1.2.2⟩

/-! ## Result lemmas for the three add paths -/

theorem AddByAddress_eq_addVote (verify : VerifyOracle) (s : VoteSet) (address : Bytes)
    (vote : Vote) (i : Nat) (val : Validator)
    (hfind : s.valSet.getByAddress address = some (i, val)) :
    s.AddByAddress verify address vote = s.addVote verify val i vote := by
  unfold VoteSet.AddByAddress
  rw [hfind]

theorem addVote_accept_eq (verify : VerifyOracle) (s : VoteSet) (val : Validator)
    (i : Nat) (vote : Vote) (hh : vote.height = s.height) (hr : vote.round = s.round)
    (ht : vote.type_ = s.type_) (hsig : verify val vote = true)
    (hslot : listGet none s.votes i = none) :
    s.addVote verify val i vote = (⟨true, i, none⟩, s.acceptVote val i vote) := by
  unfold VoteSet.addVote
  rw [if_neg (by simp [hh, hr, ht]), if_neg (by simp [hsig]), hslot]

theorem addVote_dup_eq (verify : VerifyOracle) (s : VoteSet) (val : Validator)
    (i : Nat) (vote existing : Vote) (hh : vote.height = s.height)
    (hr : vote.round = s.round) (ht : vote.type_ = s.type_)
    (hsig : verify val vote = true) (hslot : listGet none s.votes i = some existing)
    (hhash : existing.blockHash = vote.blockHash) :
    s.addVote verify val i vote = (⟨false, i, none⟩, s) := by
  unfold VoteSet.addVote
  rw [if_neg (by simp [hh, hr, ht]), if_neg (by simp [hsig]), hslot]
  simp [hhash]

theorem addVote_conflict_eq (verify : VerifyOracle) (s : VoteSet) (val : Validator)
    (i : Nat) (vote existing : Vote) (hh : vote.height = s.height)
    (hr : vote.round = s.round) (ht : vote.type_ = s.type_)
    (hsig : verify val vote = true) (hslot : listGet none s.votes i = some existing)
    (hhash : existing.blockHash ≠ vote.blockHash) :
    s.addVote verify val i vote =
      (⟨false, i, some (VoteErr.conflictingSignature existing vote)⟩, s) := by
  unfold VoteSet.addVote
  rw [if_neg (by simp [hh, hr, ht]), if_neg (by simp [hsig]), hslot]
  simp [hhash]

/-! ## The POLRound scan -/

theorem polScan_neg_one (hvs : HeightVoteSet) (r : Nat) :
    hvs.polScan r = -1 ↔ ∀ k, k ≤ r → hvs.majPrevoteAt k = false := by
  induction r with
  | zero =>
    by_cases h : hvs.majPrevoteAt 0
    · simp only [HeightVoteSet.polScan, if_pos h]
      constructor
      · intro h0
        exact absurd h0 (by decide)
      · intro hall
        have := hall 0 le_rfl
        rw [h] at this
        exact absurd this (by decide)
    · simp only [HeightVoteSet.polScan, if_neg h]
      constructor
      · intro _ k hk
        have : k = 0 := Nat.le_zero.mp hk
        subst this
        exact eq_false_of_ne_true h
      · intro _
        trivial
  | succ r ih =>
    by_cases h : hvs.majPrevoteAt (r + 1)
    · simp only [HeightVoteSet.polScan, if_pos h]
      constructor
      · intro h0
        exact absurd h0 (by omega)
      · intro hall
        have := hall (r + 1) le_rfl
        rw [h] at this
        exact absurd this (by decide)
    · simp only [HeightVoteSet.polScan, if_neg h]
      rw [ih]
      constructor
      · intro hall k hk
        rcases Nat.lt_or_ge k (r + 1) with hlt | hge
        · exact hall k (by omega)
        · have : k = r + 1 := by omega
          subst this
          exact eq_false_of_ne_true h
      · intro hall k hk
        exact hall k (by omega)

theorem polScan_eq_coe (hvs : HeightVoteSet) (r k : Nat) :
    hvs.polScan r = (k : Int) ↔
      (k ≤ r ∧ hvs.majPrevoteAt k = true ∧
        ∀ j, j ≤ r → k < j → hvs.majPrevoteAt j = false) := by
  induction r with
  | zero =>
    by_cases h : hvs.majPrevoteAt 0
    · simp only [HeightVoteSet.polScan, if_pos h]
      constructor
      · intro h0
        have hk : k = 0 := by omega
        subst hk
        exact ⟨le_rfl, h, fun j hj hj0 => by omega⟩
      · rintro ⟨hk, hmaj, _⟩
        have : k = 0 := Nat.le_zero.mp hk
        subst this
        rfl
    · simp only [HeightVoteSet.polScan, if_neg h]
      constructor
      · intro h0
        exact absurd h0 (by omega)
      · rintro ⟨hk, hmaj, _⟩
        have : k = 0 := Nat.le_zero.mp hk
        subst this
        rw [hmaj] at h
        exact absurd rfl h
  | succ r ih =>
    by_cases h : hvs.majPrevoteAt (r + 1)
    · simp only [HeightVoteSet.polScan, if_pos h]
      constructor
      · intro h0
        have hk : k = r + 1 := by omega
        subst hk
        exact ⟨le_rfl, h, fun j hj hj1 => by omega⟩
      · rintro ⟨hk, hmaj, hnone⟩
        rcases Nat.lt_or_ge k (r + 1) with hlt | hge
        · have hcontra := hnone (r + 1) le_rfl hlt
          rw [h] at hcontra
          exact absurd hcontra (by decide)
        · have : k = r + 1 := by omega
          subst this
          omega
    · simp only [HeightVoteSet.polScan, if_neg h]
      rw [ih]
      constructor
      · rintro ⟨hk, hmaj, hnone⟩
        refine ⟨by omega, hmaj, fun j hj hjk => ?_⟩
        rcases Nat.lt_or_ge j (r + 1) with hlt | hge
        · exact hnone j (by omega) hjk
        · have : j = r + 1 := by omega
          subst this
          exact eq_false_of_ne_true h
      · rintro ⟨hk, hmaj, hnone⟩
        have hkr : k ≤ r := by
          rcases Nat.lt_or_ge k (r + 1) with hlt | hge
          · omega
          · have : k = r + 1 := by omega
            subst this
            rw [hmaj] at h
            exact absurd rfl h
        exact ⟨hkr, hmaj, fun j hj hjk => hnone j (by omega) hjk⟩

/-! ## Claims -/

/-- C1: evaluation of `HeightVoteSet.AddByAddress` at the spec's catch-up
scenario (fresh height-1 HeightVoteSet, peer P1, valid precommit for round
7, peer not yet in `peerCatchupRounds`).  The code allocates round 7 and
records `peerCatchupRounds[P1] = 7`, but returns `(added=false, 0, nil)`
without delegating the vote to the new VoteSet: the vote slot stays empty
and no power is tallied, contradicting the claimed `added=true`. -/
theorem claim1_catchup_vote_dropped :
    ((NewHeightVoteSet 1 vs1).AddByAddress trivialVerify [10] voteR7 "P1").map
      (fun p => (p.1, mapFind p.2.peerCatchupRounds "P1",
        (mapFind p.2.roundVoteSets 7).isSome,
        (p.2.getVoteSet 7 VoteTypePrecommit).join.map VoteSet.totalVotes,
        (p.2.getVoteSet 7 VoteTypePrecommit).join.map VoteSet.votes)) =
      some (⟨false, 0, none⟩, some 7, true, some 0, some [none]) := by
  rfl

/-- C2: evaluation of `HeightVoteSet.SetRound` at the failing inputs.  The
loop body calls `addRound(round)` instead of `addRound(r)`: `SetRound 2`
from the fresh state leaves round 1 unallocated while setting `round = 2`
(violating the documented `keys: [0...round]` invariant), and `SetRound 6`
panics inside `addRound` on the second missing intermediate round. -/
theorem claim2_setround_gap :
    ((((NewHeightVoteSet 1 vs1).SetRound 2).map
      (fun hvs => (hvs.round, (mapFind hvs.roundVoteSets 1).isSome,
        (mapFind hvs.roundVoteSets 2).isSome))) = some (2, false, true)) ∧
    (NewHeightVoteSet 1 vs1).SetRound 6 = none := by
  decide

/-- C3 counterexample: a reachable precommit VoteSet whose maj23 latched on
the nil block identifier (empty hash).  The claim says MakeValidation then
returns a Validation; the code aborts (`len(maj23Hash) == 0` panic). -/
theorem claim3_nil_maj23_aborts :
    latchedNil.type_ = VoteTypePrecommit ∧ latchedNil.maj23Exists = true ∧
      latchedNil.MakeValidation = none := by
  decide

/-- C3 (amended): `MakeValidation` aborts exactly when the kind is not
Precommit or `maj23Hash` is empty — that is, when maj23 has not been
latched or was latched on the nil block identifier; otherwise it returns a
Validation whose slot i holds the stored vote iff that vote matches maj23
in both block hash and parts header, all other slots empty. -/
theorem claim3_make_validation (s : VoteSet) :
    (s.MakeValidation = none ↔ (s.type_ ≠ VoteTypePrecommit ∨ s.maj23Hash = [])) ∧
    (∀ (val : Validation) (i : Nat), s.MakeValidation = some val →
      val.precommits[i]? =
        (s.votes[i]?).map (selectPrecommit s.maj23Hash s.maj23Parts)) := by
  constructor
  · constructor
    · intro h
      unfold VoteSet.MakeValidation at h
      split at h
      · next ht => exact Or.inl ht
      · split at h
        · next hlen => exact Or.inr (List.length_eq_zero.mp hlen)
        · exact absurd h (by simp)
    · intro h
      unfold VoteSet.MakeValidation
      rcases h with ht | hh
      · rw [if_pos ht]
      · by_cases ht : s.type_ ≠ VoteTypePrecommit
        · rw [if_pos ht]
        · rw [if_neg ht, if_pos (by rw [hh]; rfl)]
  · intro val i hval
    unfold VoteSet.MakeValidation at hval
    split at hval
    · exact absurd hval (by simp)
    · split at hval
      · exact absurd hval (by simp)
      · simp only [Option.some.injEq] at hval
        subst hval
        simp [List.getElem?_map]

/-- Witness for C3 (amended) at a concrete latched precommit VoteSet. -/
theorem claim3_make_validation_witness :
    validationAA.precommits[0]? =
      (latchedAA.votes[0]?).map (selectPrecommit latchedAA.maj23Hash latchedAA.maj23Parts) :=
  (claim3_make_validation latchedAA).2 validationAA 0 (by decide)

/-- C4: over any reachable VoteSet with the maj23 latch set, any further
sequence of add operations leaves `HasTwoThirdsMajority` true and both the
`TwoThirdsMajority` pair and the latched hash/parts unchanged. -/
theorem claim4_maj23_latch_monotone (verify : VerifyOracle) (s : VoteSet)
    (ops : List (Bytes × Vote)) (hreach : VoteSet.Reachable verify s)
    (hmaj : VoteSetPtr.HasTwoThirdsMajority (some s) = true) :
    VoteSetPtr.HasTwoThirdsMajority (some (VoteSet.applyAdds verify s ops)) = true ∧
    (VoteSet.applyAdds verify s ops).TwoThirdsMajority = s.TwoThirdsMajority ∧
    (VoteSet.applyAdds verify s ops).maj23Hash = s.maj23Hash ∧
    (VoteSet.applyAdds verify s ops).maj23Parts = s.maj23Parts := by
  have hmaj' : s.maj23Exists = true := hmaj
  have h := applyAdds_maj23 verify ops s hreach hmaj'
  refine ⟨h.1, ?_, h.2.1, h.2.2⟩
  simp [VoteSet.TwoThirdsMajority, h.1, hmaj', h.2.1, h.2.2]

/-- Witness for C4: the latched single-validator VoteSet stays latched on
block 0xAA across a further (conflicting) submission. -/
theorem claim4_maj23_latch_monotone_witness :
    VoteSetPtr.HasTwoThirdsMajority
      (some (VoteSet.applyAdds trivialVerify latchedAA [([10], voteBB)])) = true ∧
    (VoteSet.applyAdds trivialVerify latchedAA [([10], voteBB)]).TwoThirdsMajority =
      latchedAA.TwoThirdsMajority ∧
    (VoteSet.applyAdds trivialVerify latchedAA [([10], voteBB)]).maj23Hash =
      latchedAA.maj23Hash ∧
    (VoteSet.applyAdds trivialVerify latchedAA [([10], voteBB)]).maj23Parts =
      latchedAA.maj23Parts :=
  claim4_maj23_latch_monotone trivialVerify latchedAA [([10], voteBB)]
    (VoteSet.Reachable.stepAddr _ [10] voteAA
      (VoteSet.Reachable.init 1 0 VoteTypePrecommit vs1 (by decide)))
    (by decide)

/-- C5: a valid vote hitting a slot that holds a vote with a different
block hash returns the ConflictingSignature error carrying the prior and
the new vote, and the whole VoteSet state is returned unchanged (prior vote
kept, new vote not stored, tally, total, bitmap and maj23 untouched). -/
theorem claim5_conflict_no_mutation (verify : VerifyOracle) (s : VoteSet)
    (address : Bytes) (vote prior : Vote) (i : Nat) (val : Validator)
    (hfind : s.valSet.getByAddress address = some (i, val))
    (hh : vote.height = s.height) (hr : vote.round = s.round) (ht : vote.type_ = s.type_)
    (hsig : verify val vote = true) (hslot : listGet none s.votes i = some prior)
    (hdiff : prior.blockHash ≠ vote.blockHash) :
    s.AddByAddress verify address vote =
      (⟨false, i, some (VoteErr.conflictingSignature prior vote)⟩, s) := by
  rw [AddByAddress_eq_addVote verify s address vote i val hfind]
  exact addVote_conflict_eq verify s val i vote prior hh hr ht hsig hslot hdiff

/-- Witness for C5: a conflicting precommit for block 0xBB against the
latched-0xAA VoteSet. -/
theorem claim5_conflict_no_mutation_witness :
    latchedAA.AddByAddress trivialVerify [10] voteBB =
      (⟨false, 0, some (VoteErr.conflictingSignature voteAA voteBB)⟩, latchedAA) :=
  claim5_conflict_no_mutation trivialVerify latchedAA [10] voteBB voteAA 0 ⟨[10], 1⟩
    (by decide) (by decide) (by decide) (by decide) (by decide) (by decide) (by decide)

/-- C6: adding the same valid vote twice yields `(true, i, nil)` then
`(false, i, nil)`, and the state after the second call is literally the
state after the first (the tally was incremented exactly once). -/
theorem claim6_duplicate_idempotent (verify : VerifyOracle) (s : VoteSet)
    (address : Bytes) (vote : Vote) (i : Nat) (val : Validator)
    (hlen : s.votes.length = s.valSet.vals.length)
    (hfind : s.valSet.getByAddress address = some (i, val))
    (hh : vote.height = s.height) (hr : vote.round = s.round) (ht : vote.type_ = s.type_)
    (hsig : verify val vote = true) (hslot : listGet none s.votes i = none) :
    (s.AddByAddress verify address vote).1 = ⟨true, i, none⟩ ∧
    ((s.AddByAddress verify address vote).2).AddByAddress verify address vote =
      (⟨false, i, none⟩, (s.AddByAddress verify address vote).2) := by
  have hiv : listIdx s.valSet.vals i = some val :=
    findByAddress_listIdx address s.valSet.vals i val hfind
  have hi : i < s.votes.length := by
    rw [hlen]
    exact listIdx_lt_length _ _ _ hiv
  have h1 : s.AddByAddress verify address vote = (⟨true, i, none⟩, s.acceptVote val i vote) := by
    rw [AddByAddress_eq_addVote verify s address vote i val hfind]
    exact addVote_accept_eq verify s val i vote hh hr ht hsig hslot
  refine ⟨by rw [h1], ?_⟩
  rw [h1]
  have hfind2 : (s.acceptVote val i vote).valSet.getByAddress address = some (i, val) := by
    rw [acceptVote_valSet]
    exact hfind
  rw [AddByAddress_eq_addVote verify _ address vote i val hfind2]
  exact addVote_dup_eq verify _ val i vote vote
    (by rw [acceptVote_height]; exact hh) (by rw [acceptVote_round]; exact hr)
    (by rw [acceptVote_type]; exact ht) hsig
    (by rw [acceptVote_votes]; exact listGet_set_self none s.votes i (some vote) hi) rfl

/-- Witness for C6: the single-validator precommit submitted twice. -/
theorem claim6_duplicate_idempotent_witness :
    ((NewVoteSet 1 0 VoteTypePrecommit vs1).AddByAddress trivialVerify [10] voteAA).1 =
      (⟨true, 0, none⟩ : AddResult) ∧
    (((NewVoteSet 1 0 VoteTypePrecommit vs1).AddByAddress trivialVerify [10]
        voteAA).2).AddByAddress trivialVerify [10] voteAA =
      (⟨false, 0, none⟩,
        ((NewVoteSet 1 0 VoteTypePrecommit vs1).AddByAddress trivialVerify [10] voteAA).2) :=
  claim6_duplicate_idempotent trivialVerify (NewVoteSet 1 0 VoteTypePrecommit vs1) [10]
    voteAA 0 ⟨[10], 1⟩ (by decide) (by decide) (by decide) (by decide) (by decide)
    (by decide) (by decide)

/-- C7: the latch threshold is the strict integer comparison against
`TotalVotingPower * 2 / 3`: a single validator of any power P > 0 latches
maj23 with its one vote, while power 6 of total 9 (tally exactly equal to
the threshold 6) does not latch. -/
theorem claim7_strict_threshold (P : Nat) (hP : 0 < P) :
    ((NewVoteSet 1 0 VoteTypePrecommit ⟨[⟨[10], P⟩]⟩).AddByAddress trivialVerify [10]
        voteAA).2.maj23Exists = true ∧
    ((NewVoteSet 1 0 VoteTypePrecommit vs96).AddByAddress trivialVerify [1]
        voteAA).2.maj23Exists = false := by
  constructor
  · have hfind : (NewVoteSet 1 0 VoteTypePrecommit ⟨[⟨[10], P⟩]⟩).valSet.getByAddress [10] =
        some (0, ⟨[10], P⟩) := rfl
    rw [AddByAddress_eq_addVote trivialVerify (NewVoteSet 1 0 VoteTypePrecommit ⟨[⟨[10], P⟩]⟩)
      [10] voteAA 0 ⟨[10], P⟩ hfind]
    rw [addVote_accept_eq trivialVerify (NewVoteSet 1 0 VoteTypePrecommit ⟨[⟨[10], P⟩]⟩)
      ⟨[10], P⟩ 0 voteAA rfl rfl rfl rfl rfl]
    simp only [VoteSet.acceptVote, NewVoteSet, ValidatorSet.totalVotingPower,
      ValidatorSet.size, List.map_cons, List.map_nil, List.sum_cons, List.sum_nil,
      mapGet, mapFind, Option.getD]
    rw [if_pos (by constructor <;> omega)]
  · decide

/-- Witness for C7 at P = 5. -/
theorem claim7_strict_threshold_witness :
    ((NewVoteSet 1 0 VoteTypePrecommit ⟨[⟨[10], 5⟩]⟩).AddByAddress trivialVerify [10]
        voteAA).2.maj23Exists = true ∧
    ((NewVoteSet 1 0 VoteTypePrecommit vs96).AddByAddress trivialVerify [1]
        voteAA).2.maj23Exists = false :=
  claim7_strict_threshold 5 (by decide)

/-- C8: `POLRound` returns −1 exactly when no round in [0, round] has a
+2/3 prevote majority, and returns k exactly when k ≤ round has a +2/3
prevote majority and every higher round in (k, round] has none — i.e. the
first hit of the descending scan. -/
theorem claim8_polround_characterization (hvs : HeightVoteSet) (k : Nat) :
    (hvs.POLRound = -1 ↔ ∀ j, j ≤ hvs.round → hvs.majPrevoteAt j = false) ∧
    (hvs.POLRound = (k : Int) ↔
      (k ≤ hvs.round ∧ hvs.majPrevoteAt k = true ∧
        ∀ j, j ≤ hvs.round → k < j → hvs.majPrevoteAt j = false)) :=
  ⟨polScan_neg_one hvs hvs.round, polScan_eq_coe hvs hvs.round k⟩

/-- Witness for C8: rounds 0..3 with prevote majorities at rounds 0 and 2
select POL round 2. -/
theorem claim8_polround_characterization_witness :
    hvsPOL.POLRound = ((2 : Nat) : Int) :=
  (claim8_polround_characterization hvsPOL 2).2.mpr (by decide)

/-- C9: a second valid vote from the same validator with the same block
hash but a different parts header is handled as an idempotent duplicate:
`(false, i, nil)` with the VoteSet state returned unchanged — no
ConflictingSignature, no storage, no tally under a separate key. -/
theorem claim9_same_hash_new_parts_dup (verify : VerifyOracle) (s : VoteSet)
    (address : Bytes) (vote prior : Vote) (i : Nat) (val : Validator)
    (hfind : s.valSet.getByAddress address = some (i, val))
    (hh : vote.height = s.height) (hr : vote.round = s.round) (ht : vote.type_ = s.type_)
    (hsig : verify val vote = true) (hslot : listGet none s.votes i = some prior)
    (hhash : prior.blockHash = vote.blockHash)
    (_hparts : prior.blockParts ≠ vote.blockParts) :
    s.AddByAddress verify address vote = (⟨false, i, none⟩, s) := by
  rw [AddByAddress_eq_addVote verify s address vote i val hfind]
  exact addVote_dup_eq verify s val i vote prior hh hr ht hsig hslot hhash

/-- Witness for C9: same hash 0xAA, parts header (2, 0x09) instead of
(1, 0xBB), against the latched VoteSet. -/
theorem claim9_same_hash_new_parts_dup_witness :
    latchedAA.AddByAddress trivialVerify [10] voteAAparts =
      (⟨false, 0, none⟩, latchedAA) :=
  claim9_same_hash_new_parts_dup trivialVerify latchedAA [10] voteAAparts voteAA 0
    ⟨[10], 1⟩ (by decide) (by decide) (by decide) (by decide) (by decide) (by decide)
    (by decide) (by decide)

/-- C10: the nil-receiver accessors return total defaults (Height, Round
and Size 0; BitArray nil; HasTwoThirdsMajority and HasTwoThirdsAny false),
and the prevote-majority test POLRound performs at a round with no entry in
`roundVoteSets` is false rather than a failure. -/
theorem claim10_nil_receivers :
    VoteSetPtr.Height none = 0 ∧ VoteSetPtr.Round none = 0 ∧ VoteSetPtr.Size none = 0 ∧
    VoteSetPtr.BitArray none = none ∧
    VoteSetPtr.HasTwoThirdsMajority none = false ∧
    VoteSetPtr.HasTwoThirdsAny none = false ∧
    ∀ (hvs : HeightVoteSet) (r : Nat), mapFind hvs.roundVoteSets r = none →
      hvs.majPrevoteAt r = false := by
  refine ⟨rfl, rfl, rfl, rfl, rfl, rfl, ?_⟩
  intro hvs r h
  unfold HeightVoteSet.majPrevoteAt HeightVoteSet.Prevotes HeightVoteSet.getVoteSet
  rw [h]
  rfl

/-- Witness for C10 at a round absent from a fresh HeightVoteSet. -/
theorem claim10_nil_receivers_witness :
    (NewHeightVoteSet 1 vs1).majPrevoteAt 5 = false :=
  claim10_nil_receivers.2.2.2.2.2.2 (NewHeightVoteSet 1 vs1) 5 (by decide)

end GuppyCamp
